import Mathlib

/-!
Verification development for the `configfetch` library.

This file shallowly embeds the core of `configfetch.py` in Lean:
the Python value universe that flows through the library, the comma/line
splitters, the conversion-function registry and its parse regex, the two
`ConfigParser`-backed stores (raw values and per-option function contexts),
the read/parse pipeline, the three-source value resolution (`Func`), the
section proxy, and the `Double` two-level fallback helper.

Every definition is translated from the source of `configfetch.py`; the
stdlib collaborators that the source calls (`configparser` storage and
merge semantics, `shlex.split`, `str.format`) are modelled to the extent
the source exercises them, and each such model is marked in its doc
comment.  Values read from INI text are taken at the structured level
(section name to option/value pairs), i.e. after `configparser`'s own
line-level INI grammar, which is external to this repository.
-/

namespace Configfetch

/-- The universe of Python values that flow through `configfetch`:
the module sentinel `_UNSET`, `None`, strings, booleans, lists of
strings and lists of lists of strings (the outputs of `_comma`/`_line`
and `_cmds`).  An empty `list` and an empty `listlist` both print as the
Python `[]` and compare equal to `[]`, which the blank tests below keep
in mind. -/
inductive PyVal where
  | unset
  | pynone
  | str (s : String)
  | pybool (b : Bool)
  | list (xs : List String)
  | listlist (xs : List (List String))
deriving DecidableEq, Repr

/-- Python truthiness (`if value:`) for the values above.  The bare
`object()` sentinel `_UNSET` is truthy. -/
def pyTruthy : PyVal → Bool
  | .unset => true
  | .pynone => false
  | .str s => s ≠ ""
  | .pybool b => b
  | .list xs => xs ≠ []
  | .listlist xs => xs ≠ []

/-- Is the value a Python `str`? (`isinstance(arg, str)`). -/
def PyVal.isStr : PyVal → Bool
  | .str _ => true
  | _ => false

/-- The exceptions the embedded code can raise: the module's
`NoSectionError` and `NoOptionError` (`NoOptionError(option, section)`),
Python `ValueError` (conversion errors), `KeyError` (failed dictionary
lookup, as in `funcdict[f]`), and attribute/type errors from applying a
string method to a non-string (or joining non-strings). -/
inductive Err where
  | noSection (sec : String)
  | noOption (option : String) (sec : String)
  | valueError (msg : String)
  | keyError (key : String)
  | attrError
  | typeError
deriving DecidableEq, Repr

/-- The characters Python's `str.strip()` and the regex class `\s`
treat as whitespace (ASCII range): space, tab, newline, carriage
return, vertical tab, form feed. -/
def isPySpace (c : Char) : Bool :=
  c = ' ' ∨ c = '\t' ∨ c = '\n' ∨ c = '\r' ∨ c = Char.ofNat 11 ∨ c = Char.ofNat 12

/-- Drop the characters satisfying `p` from both ends of a character
list, as Python's `str.strip(chars)` does. -/
def stripChars (p : Char → Bool) (cs : List Char) : List Char :=
  ((cs.dropWhile p).reverse.dropWhile p).reverse

/-- Python `str.strip()` (whitespace on both ends). -/
def pyStrip (s : String) : String :=
  String.mk (stripChars isPySpace s.data)

/-- Python `str.lower()` (ASCII letters suffice for the boolean table). -/
def pyLower (s : String) : String :=
  String.mk (s.data.map Char.toLower)

/-- Python `value.split(sep)` for a one-character separator, at the
character-list level: splits at every occurrence of `sep`, keeping
empty chunks, and `[] → [[]]` (Python `''.split(',') == ['']`). -/
def pySplitChar (sep : Char) : List Char → List (List Char)
  | [] => [[]]
  | c :: rest =>
    if c = sep then [] :: pySplitChar sep rest
    else
      match pySplitChar sep rest with
      | [] => [[c]]
      | h :: t => (c :: h) :: t

/-- `_parse_comma` of `configfetch.py`:
`[val.strip() for val in value.split(',') if val.strip()]` — split at
every comma, strip whitespace, drop blank pieces.  (The source guards
with `if value:`, which changes nothing for the empty string: the
result is `[]` either way.) -/
def parseComma (s : String) : List String :=
  (((pySplitChar ',' s.data).map (fun cs => String.mk (stripChars isPySpace cs))).filter
    (fun v => v ≠ ""))

/-- `_parse_line` of `configfetch.py`:
`[val.strip(' ,') for val in value.split('\n') if val.strip()]` —
split at newlines, drop whitespace-only pieces, and strip spaces and
commas from both ends of the kept pieces. -/
def parseLine (s : String) : List String :=
  ((pySplitChar '\n' s.data).filter
      (fun cs => String.mk (stripChars isPySpace cs) ≠ "")).map
    (fun cs => String.mk (stripChars (fun c => c = ' ' ∨ c = ',') cs))

/-! ## The value-function registry

After module initialization `_REGISTRY` holds the eight `@register`-ed
method names of `Func`.  `_make_func_dict` maps the uppercase,
underscore-stripped forms to the method names; `_make_func_regex`
builds the `[=NAME]` parse regex from the same keys. -/

/-- The uppercase directive names, i.e. the keys of
`_make_func_dict(_REGISTRY)`.  `_REGISTRY` is a Python `set`; the order
fixed here is immaterial because distinct keys can never match the same
`[=NAME]` token (a match requires the exact text `NAME]` and no key
contains `]`). -/
def funcKeys : List String :=
  ["BOOL", "COMMA", "LINE", "BAR", "CMD", "CMDS", "FMT", "PLUS"]

/-- `_make_func_dict(_REGISTRY)`: uppercase key to method name. -/
def funcdict : List (String × String) :=
  [("BOOL", "_bool"), ("COMMA", "_comma"), ("LINE", "_line"), ("BAR", "_bar"),
   ("CMD", "_cmd"), ("CMDS", "_cmds"), ("FMT", "_fmt"), ("PLUS", "_plus")]

/-! ## The plus/minus merge (`_get_plusminus_values`) -/

/-- `OrderedDict.fromkeys`: order-preserving, first-occurrence
de-duplication (values are irrelevant; only the key order matters). -/
def fromkeys (l : List String) : List String :=
  l.foldl (fun acc k => if k ∈ acc then acc else acc ++ [k]) []

/-- Python slicing `a[:1]`: the first character as a string (empty for
the empty string). -/
def pyTake1 (a : String) : String :=
  String.mk (a.data.take 1)

/-- Python slicing `a[1:]`: everything after the first character. -/
def pyDrop1 (a : String) : String :=
  String.mk (a.data.drop 1)

/-- Does the member carry a plus/minus marker?
(`a.startswith(('+', '-'))` in `_get_plusminus_values`). -/
def pmMark (y : String) : Bool :=
  match y.data with
  | [] => false
  | c :: _ => c = '+' ∨ c = '-'

/-- Python truthiness of one merge layer is not what decides skipping;
`adjust in (_UNSET, None, '', [])` is, spelled out here.  An empty
Python list compares equal to `[]` whatever its element type. -/
def pmBlankLayer (b : PyVal) : Bool :=
  b = PyVal.unset ∨ b = PyVal.pynone ∨ b = PyVal.str "" ∨
    b = PyVal.list [] ∨ b = PyVal.listlist []

/-- Is the member a well-formed `+name` / `-name` (marker plus a
non-empty name)?  Exactly the members `pmApply` accepts. -/
def pmWellFormed (y : String) : Bool :=
  (pyTake1 y = "+" ∨ pyTake1 y = "-") ∧ pyDrop1 y ≠ ""

/-- The pure effect of one well-formed member: `+name` appends `name`
at the end when absent, `-name` removes `name` when present. -/
def pmApplyPure (values : List String) (y : String) : List String :=
  if pyTake1 y = "+" then
    (if pyDrop1 y ∈ values then values else values ++ [pyDrop1 y])
  else values.erase (pyDrop1 y)

/-- One element of a `+`/`-` layer, from the inner loop of
`_get_plusminus_values`: `cmd, a = a[:1], a[1:]`; `+name` appends
`name` when absent, `-name` deletes `name` when present, and anything
else (including a bare `+` or `-` or an unmarked member) raises
`ValueError`. -/
def pmApply (values : List String) (a : String) : Except Err (List String) :=
  if pyDrop1 a ≠ "" ∧ pyTake1 a = "+" then
    .ok (if pyDrop1 a ∈ values then values else values ++ [pyDrop1 a])
  else if pyDrop1 a ≠ "" ∧ pyTake1 a = "-" then
    .ok (values.erase (pyDrop1 a))
  else
    .error (.valueError
      ("Input members must be +something or -something, or none of them. Got "
        ++ reprStr (pyTake1 a ++ pyDrop1 a) ++ "."))

/-- One layer of `_get_plusminus_values`: skip the blank layers
(`adjust in (_UNSET, None, '', [])` — note an empty Python list compares
equal to `[]` whatever its element type), reject non-strings, comma-split,
replace wholesale when no member carries a `+`/`-` marker, and otherwise
fold `pmApply` over the members. -/
def pmStep (values : List String) (adjust : PyVal) : Except Err (List String) :=
  if pmBlankLayer adjust then
    .ok values
  else
    match adjust with
    | .str s =>
      if ¬ (parseComma s).any pmMark then
        .ok (fromkeys (parseComma s))
      else
        (parseComma s).foldlM pmApply values
    | a => .error (.valueError ("Each input should be a string. Got " ++ reprStr a))

/-- `_get_plusminus_values(adjusts, initial=None)`: seed the ordered set
from `initial` when it is a non-empty list (`if initial` is Python
truthiness) and fold the layers over it. -/
def getPlusminusValues (adjusts : List PyVal) (initial : Option (List String)) :
    Except Err (List String) :=
  let values := match initial with
    | some xs => if xs ≠ [] then fromkeys xs else []
    | none => []
  adjusts.foldlM pmStep values

/-! ## The two `ConfigParser` stores

`ConfigFetch` keeps two `ConfigParser` objects: `_config` (raw values)
and `_ctxs` (per-option function names).  A parser is modelled by its
default-section option dictionary and its ordered regular sections,
each an ordered option dictionary.  Option and section names are taken
already `optionxform`-ed.  The default section name is `'DEFAULT'`
(both parsers are constructed with the same `default_section`). -/

/-- A `ConfigParser`'s storage: `_defaults` and `_sections`. -/
structure CPStore where
  defaults : List (String × String)
  sections : List (String × List (String × String))
deriving DecidableEq, Repr

/-- The empty parser. -/
def CPStore.empty : CPStore := ⟨[], []⟩

/-- Python dict update: overwrite in place when the key exists (keeping
its position), append otherwise. -/
def assocSet (l : List (String × String)) (k v : String) : List (String × String) :=
  match l with
  | [] => [(k, v)]
  | (k', v') :: rest =>
    if k' = k then (k, v) :: rest else (k', v') :: assocSet rest k v

/-- `ConfigParser.__contains__`: the default section is always
contained; otherwise the name must be a regular section. -/
def CPStore.contains (st : CPStore) (sec : String) : Bool :=
  sec = "DEFAULT" ∨ (st.sections.lookup sec).isSome

/-- `ConfigParser.add_section` (insertion order preserved). -/
def CPStore.addSection (st : CPStore) (sec : String) : CPStore :=
  { st with sections := st.sections ++ [(sec, [])] }

/-- `ConfigParser.set(section, option, value)`: write into the default
dictionary for the default section, else into the named section.  (The
callers below only ever set options of sections that exist; a missing
section is left unchanged where `configparser` would raise.) -/
def CPStore.set (st : CPStore) (sec opt v : String) : CPStore :=
  if sec = "DEFAULT" then { st with defaults := assocSet st.defaults opt v }
  else
    { st with
      sections := st.sections.map (fun q => if q.1 = sec then (q.1, assocSet q.2 opt v) else q) }

/-- `ConfigParser.get(section, option)` without fallback: raise
`NoSectionError` for an unknown regular section, else look the option
up in the section and then in the defaults, raising `NoOptionError`
when both miss. -/
def configGet (st : CPStore) (sec opt : String) : Except Err String :=
  if sec = "DEFAULT" then
    match st.defaults.lookup opt with
    | some v => .ok v
    | none => .error (.noOption opt sec)
  else
    match st.sections.lookup sec with
    | none => .error (.noSection sec)
    | some entries =>
      match entries.lookup opt with
      | some v => .ok v
      | none =>
        match st.defaults.lookup opt with
        | some v => .ok v
        | none => .error (.noOption opt sec)

/-- The option-name list a section proxy iterates
(`ConfigParser.options`): the section's own keys in order, then the
default keys not shadowed by them; for the default section, just the
default keys. -/
def CPStore.optionsOf (st : CPStore) (sec : String) : List String :=
  if sec = "DEFAULT" then st.defaults.map (·.1)
  else
    let own := ((st.sections.lookup sec).getD []).map (·.1)
    own ++ (st.defaults.map (·.1)).filter (fun k => ¬ k ∈ own)

/-! ## Reading and parsing (`read_string` / `read_file` + `_parse_config`)

A read first merges the INI data into `_config` (this is
`configparser`'s own merge: new sections appended, option values
overwritten in place) and then runs `_check_and_parse_config`. -/

/-- One batch of INI input, structurally: section name (the default
section appears as `'DEFAULT'`) to ordered option/value pairs, names
already `optionxform`-ed.  The line-level INI grammar is
`configparser`'s, external to this repository. -/
def ReadInput := List (String × List (String × String))

/-- `configparser`'s read merge into an existing parser. -/
def mergeRead (st : CPStore) (inp : ReadInput) : CPStore :=
  inp.foldl
    (fun st q =>
      let st := if st.contains q.1 then st else st.addSection q.1
      q.2.foldl (fun st p => st.set q.1 p.1 p.2) st)
    st

/-- Try to match one `\[=(KEY)\]` alternative of the function regex at
the start of `s`, for each registry key in turn: the text must be the
key followed by `]`.  Returns the key and the rest after the `]`. -/
def matchKey (s : List Char) : List String → Option (String × List Char)
  | [] => none
  | k :: ks =>
    if s.take k.length = k.data ∧ (s.drop k.length).take 1 = [']'] then
      some (k, s.drop (k.length + 1))
    else matchKey s ks

/-- One anchored match of `_make_func_regex(_REGISTRY)`, i.e.
`\s*(?:\[=(BOOL)\]|...)\s*`: optional whitespace, a bracket token whose
name is a registered key, optional trailing whitespace.  `none` when no
alternative matches (the regex then consumes nothing at all). -/
def matchFuncToken (s : List Char) : Option (String × List Char) :=
  match s.dropWhile isPySpace with
  | c1 :: c2 :: rest =>
    if c1 = '[' ∧ c2 = '=' then
      match matchKey rest funcKeys with
      | some (k, rest2) => some (k, rest2.dropWhile isPySpace)
      | none => none
    else none
  | _ => none

/-- The `while True` loop of `_parse_option`: repeatedly consume
leading function tokens, collecting their names.  The fuel is the
length of the value plus one; each successful match consumes at least
the four characters `[=` + name + `]`, so the fuel never runs out. -/
def parseOptionLoop (fuel : Nat) (s : List Char) (acc : List String) :
    List Char × List String :=
  match fuel with
  | 0 => (s, acc)
  | fuel + 1 =>
    match matchFuncToken s with
    | some (k, rest) => parseOptionLoop fuel rest (acc ++ [k])
    | none => (s, acc)

/-- Split one option's raw text into the payload (written back into the
config store) and the recognized function names, in order. -/
def parseOptionValue (v : String) : String × List String :=
  let r := parseOptionLoop (v.data.length + 1) v.data []
  (String.mk r.1, r.2)

/-- Python `','.join(l)`. -/
def pyJoinComma : List String → String
  | [] => ""
  | [x] => x
  | x :: xs => x ++ "," ++ pyJoinComma xs

/-- `_parse_option(section, option, ctx)`: fetch the option's raw value
(through the section proxy, hence with default-section fallback), strip
the leading function tokens, write the payload back into the section,
and record the comma-joined names in the context store when any were
found. -/
def parseStoreOption (cfg ctxs : CPStore) (sec opt : String) : CPStore × CPStore :=
  match configGet cfg sec opt with
  | .error _ => (cfg, ctxs)
  | .ok value =>
    let r := parseOptionValue value
    let cfg := cfg.set sec opt r.1
    let ctxs := if r.2 ≠ [] then ctxs.set sec opt (pyJoinComma r.2) else ctxs
    (cfg, ctxs)

/-- The body of `_parse_config` for one `(secname, section)` item:
add the section to `_ctxs` unless already contained (the default
section always is), then parse each option the proxy iterates.  The
option list is snapshotted before the loop, as `ConfigParser.options`
returns a fresh list. -/
def parseOneSection (st : CPStore × CPStore) (sec : String) : CPStore × CPStore :=
  let ctxs := if st.2.contains sec then st.2 else st.2.addSection sec
  let opts := st.1.optionsOf sec
  opts.foldl (fun st opt => parseStoreOption st.1 st.2 sec opt) (st.1, ctxs)

/-- `_parse_config`: iterate `self._config.items()` — the default
section first, then the regular sections in order. -/
def parseConfigFull (cfg ctxs : CPStore) : CPStore × CPStore :=
  ("DEFAULT" :: cfg.sections.map (·.1)).foldl parseOneSection (cfg, ctxs)

/-! ## The `ConfigFetch` object and its reads -/

/-- The state of a `ConfigFetch` object together with its read-only
collaborators: the two stores, the parsed argument namespace `args`
(name to value; `argparse.Namespace` is always truthy, so only
membership matters), the option-to-environment-variable map `envs`,
the process environment `os.environ`, and the `fmts` map for `_fmt`. -/
structure Fetch where
  config : CPStore
  ctxs : CPStore
  args : List (String × PyVal)
  envs : List (String × String)
  environ : List (String × String)
  fmts : List (String × String)
deriving DecidableEq, Repr

/-- `_check_and_parse_config(format)`: a `None` format means `'fini'`
exactly when `_ctxs._sections` is empty (the default-section dictionary
is not consulted); only `'fini'` triggers `_parse_config`. -/
def checkAndParseConfig (F : Fetch) (format : Option String) : Fetch :=
  let format := if format = none then
      (if F.ctxs.sections = [] then some "fini" else none)
    else format
  if format = some "fini" then
    let r := parseConfigFull F.config F.ctxs
    { F with config := r.1, ctxs := r.2 }
  else F

/-- `read_string` / `read_file`: merge the input into `_config`, then
`_check_and_parse_config(format)`. -/
def readStructured (F : Fetch) (inp : ReadInput) (format : Option String) : Fetch :=
  checkAndParseConfig { F with config := mergeRead F.config inp } format

/-- A fresh `ConfigFetch` (both stores empty). -/
def emptyFetch (args : List (String × PyVal)) (envs environ fmts : List (String × String)) :
    Fetch :=
  ⟨CPStore.empty, CPStore.empty, args, envs, environ, fmts⟩

/-- A sequence of reads against a fresh object. -/
def runReads (args : List (String × PyVal)) (envs environ fmts : List (String × String))
    (reads : List (ReadInput × Option String)) : Fetch :=
  reads.foldl (fun F r => readStructured F r.1 r.2) (emptyFetch args envs environ fmts)

/-! ## Models of stdlib calls made by `Func` methods -/

/-- `'{'` (written numerically so no brace appears in the text). -/
def lbrace : Char := Char.ofNat 123

/-- `'}'`. -/
def rbrace : Char := Char.ofNat 125

/-- Models Python's `str.format(**fmts)` as `_fmt` uses it (stdlib,
external to this repository): doubled braces are literals, a simple
replacement field looks its name up in `fmts` (`KeyError` when
missing), an unmatched brace is a `ValueError`.  Conversion and
format-spec suffixes are not modelled; no claim exercises them. -/
def pyFormatAux (fmts : List (String × String)) : Nat → List Char → Except Err (List Char)
  | 0, _ => .ok []
  | _, [] => .ok []
  | fuel + 1, c :: cs =>
    if c = lbrace then
      match cs with
      | c2 :: cs2 =>
        if c2 = lbrace then (pyFormatAux fmts fuel cs2).map (lbrace :: ·)
        else
          let field := (c2 :: cs2).takeWhile (fun d => d ≠ rbrace)
          let rest := (c2 :: cs2).dropWhile (fun d => d ≠ rbrace)
          match rest with
          | [] => .error (.valueError "Single opening brace encountered in format string")
          | _ :: rest2 =>
            match fmts.lookup (String.mk field) with
            | some v => (pyFormatAux fmts fuel rest2).map (v.data ++ ·)
            | none => .error (.keyError (String.mk field))
      | [] => .error (.valueError "Single opening brace encountered in format string")
    else if c = rbrace then
      match cs with
      | c2 :: cs2 =>
        if c2 = rbrace then (pyFormatAux fmts fuel cs2).map (rbrace :: ·)
        else .error (.valueError "Single closing brace encountered in format string")
      | [] => .error (.valueError "Single closing brace encountered in format string")
    else (pyFormatAux fmts fuel cs).map (c :: ·)

/-- `value.format(**fmts)`. -/
def pyFormat (fmts : List (String × String)) (s : String) : Except Err String :=
  (pyFormatAux fmts (2 * s.data.length + 1) s.data).map String.mk

/-- The scanner state of the `shlex` model. -/
inductive ShMode where
  | norm
  | single
  | double
deriving DecidableEq, Repr

/-- Models Python's `shlex.split(value, comments='#')` (stdlib,
external to this repository): POSIX mode with whitespace splitting,
`'`/`"` quoting (backslash escapes inside double quotes only for `\`
and `"`), backslash escaping outside quotes, and `#` comments running
to the end of the line.  An unterminated quote or a trailing escape is
a `ValueError`, as in `shlex`. -/
def shlexAux (fuel : Nat) (mode : ShMode) (cs : List Char) (tok : List Char)
    (started : Bool) (acc : List String) : Except Err (List String) :=
  match fuel with
  | 0 => .ok acc
  | fuel + 1 =>
    match mode, cs with
    | .norm, [] => .ok (if started then acc ++ [String.mk tok] else acc)
    | .norm, c :: rest =>
      if c = ' ' ∨ c = '\t' ∨ c = '\r' ∨ c = '\n' then
        if started then shlexAux fuel .norm rest [] false (acc ++ [String.mk tok])
        else shlexAux fuel .norm rest [] false acc
      else if c = '#' then
        let rest2 := rest.dropWhile (fun d => d ≠ '\n')
        if started then shlexAux fuel .norm rest2 [] false (acc ++ [String.mk tok])
        else shlexAux fuel .norm rest2 [] false acc
      else if c = '\'' then shlexAux fuel .single rest tok true acc
      else if c = '"' then shlexAux fuel .double rest tok true acc
      else if c = '\\' then
        match rest with
        | [] => .error (.valueError "No escaped character")
        | e :: rest2 => shlexAux fuel .norm rest2 (tok ++ [e]) true acc
      else shlexAux fuel .norm rest (tok ++ [c]) true acc
    | .single, [] => .error (.valueError "No closing quotation")
    | .single, c :: rest =>
      if c = '\'' then shlexAux fuel .norm rest tok started acc
      else shlexAux fuel .single rest (tok ++ [c]) started acc
    | .double, [] => .error (.valueError "No closing quotation")
    | .double, c :: rest =>
      if c = '"' then shlexAux fuel .norm rest tok started acc
      else if c = '\\' then
        match rest with
        | [] => .error (.valueError "No escaped character")
        | e :: rest2 =>
          if e = '"' ∨ e = '\\' then shlexAux fuel .double rest2 (tok ++ [e]) started acc
          else shlexAux fuel .double rest2 (tok ++ ['\\', e]) started acc
      else shlexAux fuel .double rest (tok ++ [c]) started acc

/-- `shlex.split(s, comments='#')`. -/
def shlexSplit (s : String) : Except Err (List String) :=
  shlexAux (2 * s.data.length + 2) .norm s.data [] false []

/-! ## The `Func` engine -/

/-- `Func.BOOLEAN_STATES` (`ConfigParser.BOOLEAN_STATES`). -/
def booleanStates : List (String × Bool) :=
  [("1", true), ("yes", true), ("true", true), ("on", true),
   ("0", false), ("no", false), ("false", false), ("off", false)]

/-- `Func._get_value(values)`: the precedence rule over the
(argument, environment, config) triple.  The argument wins unless it is
`_UNSET` or `None`; the environment wins unless `_UNSET` or the empty
string; the config value wins unless `_UNSET`; otherwise `_UNSET`
signals "no value". -/
def getValue (a e c : PyVal) : PyVal :=
  if a ≠ PyVal.unset ∧ a ≠ PyVal.pynone then a
  else if e ≠ PyVal.unset ∧ e ≠ PyVal.str "" then e
  else if c ≠ PyVal.unset then c
  else PyVal.unset

/-- The `funcdict[f]` lookups of `Func._get_funcname`, in loop order:
`KeyError` at the first name missing from the dictionary. -/
def lookupChain : List String → Except Err (List String)
  | [] => .ok []
  | n :: rest =>
    match funcdict.lookup n with
    | some fn => (lookupChain rest).map (fn :: ·)
    | none => .error (.keyError n)

/-- `value.split(',')` followed by `f.strip()` on each piece, as in
`Func._get_funcname`. -/
def splitStripComma (s : String) : List String :=
  (pySplitChar ',' s.data).map (fun cs => String.mk (stripChars isPySpace cs))

/-- Truthiness of the context section proxy (`if self._ctx:`):
its length, i.e. the number of options the proxy iterates (own options
plus unshadowed defaults; just the defaults for the default section). -/
def ctxTruthy (ctxs : CPStore) (name : String) : Bool :=
  ctxs.optionsOf name ≠ []

/-- `self._ctx.get(option)`: `ConfigParser` section-proxy `get` with
fallback `None` — the option in the named section, else in the
defaults, else nothing. -/
def ctxGet (ctxs : CPStore) (name opt : String) : Option String :=
  if name = "DEFAULT" then ctxs.defaults.lookup opt
  else
    match (ctxs.sections.lookup name).getD [] |>.lookup opt with
    | some v => some v
    | none => ctxs.defaults.lookup opt

/-- `Func._get_funcname(option)`: an empty context proxy or a missing /
falsy stored value yields no functions; otherwise the stored string is
comma-split, stripped and looked up in `funcdict` (a `KeyError` there
propagates). -/
def getFuncname (ctxs : CPStore) (name opt : String) : Except Err (List String) :=
  if ctxTruthy ctxs name then
    match ctxGet ctxs name opt with
    | some s => if s ≠ "" then lookupChain (splitStripComma s) else .ok []
    | none => .ok []
  else .ok []

/-- One registered `Func` method applied to a value.  `self` carries
`fmts` and the `values` triple stashed by `Func.__call__` (used by
`_plus`, which ignores its argument).  Dispatch is `getattr(self, fn)`
on the method names stored in `funcdict`. -/
def applyMeth (fmts : List (String × String)) (vals : PyVal × PyVal × PyVal)
    (fn : String) (v : PyVal) : Except Err PyVal :=
  match fn with
  | "_bool" =>
    match v with
    | .str s =>
      match booleanStates.lookup (pyLower s) with
      | some b => .ok (.pybool b)
      | none => .error (.valueError ("Not a boolean: " ++ s))
    | _ => .error .attrError
  | "_comma" =>
    if ¬ pyTruthy v then .ok (.list [])
    else
      match v with
      | .str s => .ok (.list (parseComma s))
      | _ => .error .attrError
  | "_line" =>
    if ¬ pyTruthy v then .ok (.list [])
    else
      match v with
      | .str s => .ok (.list (parseLine s))
      | _ => .error .attrError
  | "_bar" =>
    match v with
    | .list xs =>
      if xs.any (fun x => x ≠ "") then .ok (.str (String.intercalate "|" xs))
      else .ok (.str "")
    | .listlist xs =>
      if xs.any (fun x => x ≠ []) then .error .typeError else .ok (.str "")
    | a => .error (.valueError ("'configfetch.Func._bar()' accepts only 'list'. Got " ++ reprStr a))
  | "_cmd" =>
    match v with
    | .str s => (shlexSplit s).map PyVal.list
    | _ => .error .attrError
  | "_cmds" =>
    match v with
    | .list xs => (xs.mapM shlexSplit).map PyVal.listlist
    | .str s => ((s.data.map (fun c => String.mk [c])).mapM shlexSplit).map PyVal.listlist
    | _ => .error .typeError
  | "_fmt" =>
    match v with
    | .str s => (pyFormat fmts s).map PyVal.str
    | _ => .error .attrError
  | "_plus" =>
    (getPlusminusValues [vals.1, vals.2.1, vals.2.2].reverse none).map PyVal.list
  | _ => .error .attrError

/-- `Func._format_value(option, values, func)`: resolve the winning
value, raise `NoOptionError(option, self._ctx.name)` when there is
none, then thread the value through the function chain. -/
def formatValue (fmts : List (String × String)) (opt ctxname : String)
    (vals : PyVal × PyVal × PyVal) (fns : List String) : Except Err PyVal :=
  let v := getValue vals.1 vals.2.1 vals.2.2
  if v = PyVal.unset then .error (.noOption opt ctxname)
  else fns.foldlM (fun acc fn => applyMeth fmts vals fn acc) v

/-- `Func.__call__(option, values)`: look the chain up (a `KeyError`
from `_get_func` propagates first), stash `values`, and format. -/
def funcCall (F : Fetch) (ctxname opt : String) (vals : PyVal × PyVal × PyVal) :
    Except Err PyVal :=
  match getFuncname F.ctxs ctxname opt with
  | .error e => .error e
  | .ok fns => formatValue F.fmts opt ctxname vals fns

/-! ## The section proxy -/

/-- A `SectionProxy`: the owning object and the requested section
name.  (The proxy also stores the `ctx` section chosen at construction;
that choice is `ctxSecName` below.) -/
structure SP where
  F : Fetch
  name : String
deriving Repr

/-- The context section `ConfigFetch.__getattr__` hands the proxy:
the section itself when `_ctxs` contains it, else the default
section. -/
def ctxSecName (F : Fetch) (sec : String) : String :=
  if F.ctxs.contains sec then sec else "DEFAULT"

/-- `SectionProxy._get_arg(option)`: the namespace value when the
namespace declares the option, else `_UNSET`. -/
def getArg (F : Fetch) (opt : String) : PyVal :=
  match F.args.lookup opt with
  | some v => v
  | none => PyVal.unset

/-- `SectionProxy._get_env(option)`: the process-environment value of
the variable named by `envs[option]`, provided `envs` is non-empty
(a falsy dict short-circuits), the variable name is non-empty and the
variable is set; else `_UNSET`. -/
def getEnv (F : Fetch) (opt : String) : PyVal :=
  let env := if F.envs ≠ [] then F.envs.lookup opt else none
  match env with
  | some e =>
    if e ≠ "" then
      match F.environ.lookup e with
      | some v => PyVal.str v
      | none => PyVal.unset
    else PyVal.unset
  | none => PyVal.unset

/-- `SectionProxy._get_conf(option)` (default arguments: fallback
`_UNSET`, no conversion): the config value, with `NoOptionError`
downgraded to the `_UNSET` fallback; a `NoSectionError` propagates. -/
def spGetConf (p : SP) (opt : String) : Except Err PyVal :=
  match configGet p.F.config p.name opt with
  | .ok v => .ok (.str v)
  | .error (.noOption _ _) => .ok PyVal.unset
  | .error e => .error e

/-- `SectionProxy._get_values(option)`: the (argument, environment,
config) triple. -/
def spGetValues (p : SP) (opt : String) : Except Err (PyVal × PyVal × PyVal) :=
  match spGetConf p opt with
  | .ok c => .ok (getArg p.F opt, getEnv p.F opt, c)
  | .error e => .error e

/-- `SectionProxy._get_funcname(option)`, as `Double` calls it. -/
def spGetFuncname (p : SP) (opt : String) : Except Err (List String) :=
  getFuncname p.F.ctxs (ctxSecName p.F p.name) opt

/-- `SectionProxy.__getattr__(option)` by way of `_convert`: a present
(`not in (_UNSET, None)`) non-string argument value is returned as is;
everything else goes through the `Func` engine. -/
def spGetattr (p : SP) (opt : String) : Except Err PyVal :=
  match spGetValues p opt with
  | .error e => .error e
  | .ok vals =>
    if vals.1 ≠ PyVal.unset ∧ vals.1 ≠ PyVal.pynone ∧ vals.1.isStr = false then
      .ok vals.1
    else funcCall p.F (ctxSecName p.F p.name) opt vals

/-- `SectionProxy.get(option, fallback=_UNSET)`: only a
`NoOptionError` is downgraded to the fallback (`none` models the
`_UNSET` default, i.e. no fallback supplied). -/
def sectionGet (p : SP) (opt : String) (fb : Option PyVal) : Except Err PyVal :=
  match spGetattr p opt with
  | .error (.noOption o s) =>
    match fb with
    | none => .error (.noOption o s)
    | some f => .ok f
  | r => r

/-! ## `Double`: two-level fallback -/

/-- A `Double`: the primary proxy `sec` and the fallback proxy
`parent_sec`. -/
structure DoubleM where
  sec : SP
  parent_sec : SP
deriving Repr

/-- Is the value blank in `Double._get_value`'s sense
(`val in (None, '', [])`)?  `False` is not blank; an empty list of any
element type equals the Python `[]`. -/
def isBlankVal (v : PyVal) : Bool :=
  v = PyVal.pynone ∨ v = PyVal.str "" ∨ v = PyVal.list [] ∨ v = PyVal.listlist []

/-- `Double._get_value(option)`: a `NoOptionError` from the primary
defers wholly to the fallback proxy; a blank primary value is replaced
by the fallback's value when the fallback succeeds and kept when the
fallback raises `NoOptionError`; any other exception propagates. -/
def doubleGetVal (D : DoubleM) (opt : String) : Except Err PyVal :=
  match spGetattr D.sec opt with
  | .error (.noOption _ _) => spGetattr D.parent_sec opt
  | .error e => .error e
  | .ok v =>
    if isBlankVal v then
      match spGetattr D.parent_sec opt with
      | .ok pv => .ok pv
      | .error (.noOption _ _) => .ok v
      | .error e => .error e
    else .ok v

/-- `Double._get_plus_value(option)`: the fallback's raw config value
is appended to the primary's three-way value set; `_check_unset` raises
`NoOptionError` when all four are `_UNSET` (its two trailing parameters
are swapped at both the call site and the raise, so the error still
carries `(option, ctx name)`); the plus/minus merge then runs over the
reversed list. -/
def doubleGetPlus (D : DoubleM) (opt : String) : Except Err PyVal :=
  match spGetConf D.parent_sec opt with
  | .error e => .error e
  | .ok pv =>
    match spGetValues D.sec opt with
    | .error e => .error e
    | .ok (a, e, c) =>
      if a = PyVal.unset ∧ e = PyVal.unset ∧ c = PyVal.unset ∧ pv = PyVal.unset then
        .error (.noOption opt (ctxSecName D.sec.F D.sec.name))
      else (getPlusminusValues ([a, e, c, pv]).reverse none).map PyVal.list

/-- `Double.__getattr__(option)`: dispatch on whether the primary's
declared chain is exactly `['_plus']`. -/
def doubleGetattr (D : DoubleM) (opt : String) : Except Err PyVal :=
  match spGetFuncname D.sec opt with
  | .error e => .error e
  | .ok fns => if fns = ["_plus"] then doubleGetPlus D opt else doubleGetVal D opt

/-- `Double.get(option, fallback=_UNSET)`: only a `ValueError` is
downgraded to the fallback. -/
def doubleGet (D : DoubleM) (opt : String) (fb : Option PyVal) : Except Err PyVal :=
  match doubleGetattr D opt with
  | .error (.valueError m) =>
    match fb with
    | none => .error (.valueError m)
    | some f => .ok f
  | r => r

/-! ## Context-store well-formedness (for the parser invariant) -/

/-- A context-store value is well formed when every comma-split,
stripped piece is a key of `funcdict`, i.e. the uppercase name of a
registered function. -/
def entryWF (v : String) : Bool :=
  (splitStripComma v).all (fun n => (funcdict.lookup n).isSome)

/-- Every value recorded anywhere in the context store (defaults and
regular sections alike) is well formed. -/
def storeWF (st : CPStore) : Bool :=
  st.defaults.all (fun p => entryWF p.2) &&
  st.sections.all (fun q => q.2.all (fun p => entryWF p.2))

/-- A registry key is non-empty, comma-free and strip-invariant (so
`','.join` followed by split-and-strip recovers it exactly). -/
def goodKey (k : String) : Bool :=
  k ≠ "" ∧ (¬ ',' ∈ k.data) ∧ pyStrip k = k

/-! ## Concrete fixtures (used by the closed theorems below) -/

/-- A fresh `ConfigFetch` with no arguments, environment or fmts. -/
def fetch0 : Fetch := emptyFetch [] [] [] []

/-- `[sec1] aa = xxx`, first read. -/
def fxXxx : Fetch := readStructured fetch0 [("sec1", [("aa", "xxx")])] none

/-- `[sec1] aa = yyy`, first read. -/
def fxYyy : Fetch := readStructured fetch0 [("sec1", [("aa", "yyy")])] none

/-- `[sec1] bb =` (an empty value), first read. -/
def fxBlankBB : Fetch := readStructured fetch0 [("sec1", [("bb", "")])] none

/-- `[sec1] aa = [=BOOL] maybe`: a declared `bool` chain over a
non-boolean payload, so resolving `aa` raises `ValueError`. -/
def fxBoolBad : Fetch := readStructured fetch0 [("sec1", [("aa", "[=BOOL] maybe")])] none

/-- `[sec1] aa = [=PLUS] xxx, yyy` (the fallback side of the
`Double` plus test). -/
def fxPlusParent : Fetch := readStructured fetch0 [("sec1", [("aa", "[=PLUS] xxx, yyy")])] none

/-- `[sec1] aa = [=PLUS] -yyy` (the primary side of the `Double`
plus test). -/
def fxPlusChild : Fetch := readStructured fetch0 [("sec1", [("aa", "[=PLUS] -yyy")])] none

/-- A hand-built state whose context store declares the `plus` chain
for `aa` although no source supplies a value for it. -/
def fxPlusEmpty : Fetch :=
  ⟨⟨[], [("sec1", [])]⟩, ⟨[], [("sec1", [("aa", "PLUS")])]⟩, [], [], [], []⟩

/-- `[sec1] aa = [=NOPE] x`: a bracket token citing an unregistered
function name. -/
def fxNope : Fetch := readStructured fetch0 [("sec1", [("aa", "[=NOPE] x")])] none

/-- First read: directives only in the default section
(`[DEFAULT] aa = [=COMMA] x`). -/
def fxDefOnly : Fetch := readStructured fetch0 [("DEFAULT", [("aa", "[=COMMA] x")])] none

/-- A second default-section-only read against `fxDefOnly`, with
`format=None`. -/
def fxDefOnly2 : Fetch := readStructured fxDefOnly [("DEFAULT", [("bb", "[=BOOL] yes")])] none

/-- An argument namespace injecting the native boolean `False` for
`cc`, over a config that declares a `bool` chain for `cc`. -/
def fxArgBool : Fetch :=
  readStructured (emptyFetch [("cc", .pybool false)] [] [] [])
    [("sec1", [("cc", "[=BOOL] yes")])] none

/-! ## Helper lemmas -/

/-- The splitter never returns an empty chunk list. -/
theorem pySplitChar_ne_nil (sep : Char) : ∀ cs, pySplitChar sep cs ≠ [] := by
  intro cs
  cases cs with
  | nil => simp [pySplitChar]
  | cons c rest =>
    by_cases hc : c = sep
    · simp [pySplitChar, hc]
    · cases h : pySplitChar sep rest with
      | nil => simp [pySplitChar, hc, h]
      | cons a t => simp [pySplitChar, hc, h]

/-- No chunk produced by the splitter contains the separator. -/
theorem mem_pySplitChar (sep : Char) :
    ∀ cs x, x ∈ pySplitChar sep cs → ¬ sep ∈ x := by
  intro cs
  induction cs with
  | nil =>
    intro x hx
    simp [pySplitChar] at hx
    subst hx; simp
  | cons c rest ih =>
    intro x hx
    by_cases hc : c = sep
    · simp only [pySplitChar, if_pos hc] at hx
      rcases List.mem_cons.mp hx with rfl | hx2
      · simp
      · exact ih x hx2
    · simp only [pySplitChar, if_neg hc] at hx
      cases h : pySplitChar sep rest with
      | nil => exact absurd h (pySplitChar_ne_nil sep rest)
      | cons hd tl =>
        rw [h] at hx
        simp only [] at hx
        rcases List.mem_cons.mp hx with rfl | hx2
        · intro hmem
          rcases List.mem_cons.mp hmem with h1 | h2
          · exact hc h1.symm
          · exact ih hd (h ▸ List.mem_cons_self hd tl) h2
        · exact ih x (h ▸ List.mem_cons.mpr (Or.inr hx2))

/-- Stripping only removes characters. -/
theorem mem_stripChars (p : Char → Bool) (cs : List Char) (c : Char)
    (h : c ∈ stripChars p cs) : c ∈ cs := by
  unfold stripChars at h
  rw [List.mem_reverse] at h
  have h2 := (List.dropWhile_sublist (l := (cs.dropWhile p).reverse) (p := p)).subset h
  rw [List.mem_reverse] at h2
  exact (List.dropWhile_sublist (l := cs) (p := p)).subset h2

/-! ## Claim C1 -/

/-- C1: resolving an option from its (argument, environment, config)
triple returns the argument value whenever it is supplied — neither the
`_UNSET` marker nor `None`, `argparse`'s own not-supplied default — and
a supplied empty string from the argument source still wins; otherwise
the environment value when it is present and non-empty; otherwise the
config value when it is present, including the empty string; and when
all three sources are absent, `_format_value` raises
`NoOptionError(option, section)`. -/
theorem c1_resolution_precedence (a e c : PyVal) (fmts : List (String × String))
    (opt ctxname : String) (fns : List String) :
    ((a ≠ PyVal.unset ∧ a ≠ PyVal.pynone) → getValue a e c = a)
    ∧ ((a = PyVal.unset ∨ a = PyVal.pynone) → e ≠ PyVal.unset → e ≠ PyVal.str "" →
        getValue a e c = e)
    ∧ ((a = PyVal.unset ∨ a = PyVal.pynone) → (e = PyVal.unset ∨ e = PyVal.str "") →
        c ≠ PyVal.unset → getValue a e c = c)
    ∧ (a = PyVal.unset → e = PyVal.unset → c = PyVal.unset →
        formatValue fmts opt ctxname (a, e, c) fns = .error (.noOption opt ctxname)) := by
  refine ⟨?_, ?_, ?_, ?_⟩
  · rintro ⟨h1, h2⟩
    simp [getValue, h1, h2]
  · rintro (rfl | rfl) h1 h2 <;> simp [getValue, h1, h2]
  · rintro (rfl | rfl) (rfl | rfl) h <;> simp [getValue, h]
  · rintro rfl rfl rfl
    simp [formatValue, getValue]

/-- Witness for C1 at the spec's own examples. -/
theorem c1_resolution_precedence_witness :
    getValue (.str "A") (.str "E") (.str "C") = .str "A"
    ∧ getValue .unset (.str "") (.str "C") = .str "C"
    ∧ formatValue [] "aa" "sec1" (.unset, .unset, .unset) [] =
        .error (.noOption "aa" "sec1") := by
  refine ⟨?_, ?_, ?_⟩
  · exact (c1_resolution_precedence (.str "A") (.str "E") (.str "C") [] "aa" "sec1" []).1
      (by decide)
  · exact (c1_resolution_precedence .unset (.str "") (.str "C") [] "aa" "sec1" []).2.2.1
      (Or.inl rfl) (Or.inr rfl) (by decide)
  · exact (c1_resolution_precedence .unset .unset .unset [] "aa" "sec1" []).2.2.2 rfl rfl rfl

/-! ## Claim C9 -/

/-- C9: when the winning value comes from the argument source and is
not a string (a native value injected by the pre-parsed argument
namespace), `_convert` returns it as is, without applying the option's
declared function chain. -/
theorem c9_nonstring_argument (p : SP) (opt : String) (a e c : PyVal)
    (h : spGetValues p opt = .ok (a, e, c))
    (h1 : a ≠ PyVal.unset) (h2 : a ≠ PyVal.pynone) (h3 : a.isStr = false) :
    spGetattr p opt = .ok a := by
  simp [spGetattr, h, h1, h2, h3]

/-- Witness for C9: the native `False` injected for `cc` bypasses the
declared `bool` chain (which would have produced `True` from the
config payload `yes`). -/
theorem c9_nonstring_argument_witness :
    spGetattr ⟨fxArgBool, "sec1"⟩ "cc" = .ok (.pybool false) :=
  c9_nonstring_argument ⟨fxArgBool, "sec1"⟩ "cc" (.pybool false) .unset (.str "yes")
    rfl (by decide) (by decide) rfl

/-! ## Claim C5 -/

/-- C5 counterexample: `_parse_comma` has no backslash escaping at
all.  On the claim's own inputs, `split_comma("aa\, bb")` is
`["aa\", "bb"]` — not the claimed `["aa, bb"]` — and
`split_comma("aa\\, bb")` is `["aa\\", "bb"]` — not the claimed
`["aa\", "bb"]`. -/
theorem c5_counterexample :
    parseComma "aa\\, bb" = ["aa\\", "bb"]
    ∧ parseComma "aa\\, bb" ≠ ["aa, bb"]
    ∧ parseComma "aa\\\\, bb" = ["aa\\\\", "bb"]
    ∧ parseComma "aa\\\\, bb" ≠ ["aa\\", "bb"] := by
  exact ⟨by decide, by decide, by decide, by decide⟩

/-- C5 amended: the comma splitter performs no escape processing —
it splits at every comma, treats backslashes as ordinary characters,
trims the pieces and drops blank ones, so no produced element ever
contains a comma (under the claimed escape semantics `"aa\, bb"` would
produce the comma-containing element `"aa, bb"`). -/
theorem c5_amended :
    (∀ s a, a ∈ parseComma s → (¬ ',' ∈ a.data) ∧ a ≠ "")
    ∧ parseComma "aa\\, bb" = ["aa\\", "bb"]
    ∧ parseComma "aa\\\\, bb" = ["aa\\\\", "bb"] := by
  refine ⟨?_, by decide, by decide⟩
  intro s a ha
  unfold parseComma at ha
  rw [List.mem_filter] at ha
  obtain ⟨hmem, hne⟩ := ha
  rw [List.mem_map] at hmem
  obtain ⟨cs, hcs, rfl⟩ := hmem
  refine ⟨?_, by simpa using hne⟩
  intro hcomma
  have hmem2 : ',' ∈ cs := mem_stripChars _ _ _ (by simpa using hcomma)
  exact mem_pySplitChar ',' s.data cs hcs hmem2

/-- Witness for C5 amended, at the element `"aa"` of
`split_comma("aa, bb")`. -/
theorem c5_amended_witness :
    (¬ ',' ∈ ("aa" : String).data) ∧ ("aa" : String) ≠ "" :=
  c5_amended.1 "aa, bb" "aa" (by decide)

/-! ## Claim C6 -/

/-- C6 counterexample: `Double.get` with an explicit fallback returns
the fallback on a conversion `ValueError` (the claim says a conversion
error always propagates), and conversely propagates `NoOptionError`
(the claim says it is downgraded to the fallback). -/
theorem c6_counterexample :
    doubleGetattr ⟨⟨fxBoolBad, "sec1"⟩, ⟨fxXxx, "sec1"⟩⟩ "aa" =
      .error (.valueError "Not a boolean: maybe")
    ∧ doubleGet ⟨⟨fxBoolBad, "sec1"⟩, ⟨fxXxx, "sec1"⟩⟩ "aa" (some (.str "FB")) =
      .ok (.str "FB")
    ∧ doubleGet ⟨⟨fxYyy, "sec1"⟩, ⟨fxXxx, "sec1"⟩⟩ "bb" (some (.str "FB")) =
      .error (.noOption "bb" "sec1") := by
  exact ⟨rfl, rfl, rfl⟩

/-- C6 amended: `SectionProxy.get` behaves as the claim says —
`NoOptionError` is downgraded to the explicit fallback and a
conversion `ValueError` always propagates — but `Double.get` is the
mirror image: it downgrades `ValueError` to the fallback and always
propagates `NoOptionError`, fallback or not. -/
theorem c6_amended :
    (∀ p opt fb o s, spGetattr p opt = .error (.noOption o s) →
        sectionGet p opt (some fb) = .ok fb)
    ∧ (∀ p opt fb m, spGetattr p opt = .error (.valueError m) →
        sectionGet p opt (some fb) = .error (.valueError m))
    ∧ (∀ D opt fb m, doubleGetattr D opt = .error (.valueError m) →
        doubleGet D opt (some fb) = .ok fb)
    ∧ (∀ D opt fb o s, doubleGetattr D opt = .error (.noOption o s) →
        doubleGet D opt (some fb) = .error (.noOption o s)) := by
  refine ⟨?_, ?_, ?_, ?_⟩
  · intro p opt fb o s h; simp [sectionGet, h]
  · intro p opt fb m h; simp [sectionGet, h]
  · intro D opt fb m h; simp [doubleGet, h]
  · intro D opt fb o s h; simp [doubleGet, h]

/-- Witness for C6 amended on concrete lookups. -/
theorem c6_amended_witness :
    sectionGet ⟨fxXxx, "sec1"⟩ "bb" (some (.str "FB")) = .ok (.str "FB")
    ∧ sectionGet ⟨fxBoolBad, "sec1"⟩ "aa" (some (.str "FB")) =
        .error (.valueError "Not a boolean: maybe")
    ∧ doubleGet ⟨⟨fxBoolBad, "sec1"⟩, ⟨fxBoolBad, "sec1"⟩⟩ "aa" (some (.str "QQ")) =
        .ok (.str "QQ")
    ∧ doubleGet ⟨⟨fxYyy, "sec1"⟩, ⟨fxBlankBB, "sec1"⟩⟩ "cc" (some (.str "QQ")) =
        .error (.noOption "cc" "sec1") := by
  exact ⟨c6_amended.1 _ _ _ "bb" "sec1" rfl, c6_amended.2.1 _ _ _ _ rfl,
    c6_amended.2.2.1 _ _ _ _ rfl, c6_amended.2.2.2 _ _ _ "cc" "sec1" rfl⟩

/-! ## Claim C7 -/

/-- C7 counterexample: the parse regex is built only from registered
names, so the unregistered token `[=NOPE]` simply does not match:
parsing completes normally (the parser has no raising path at all),
records no function, leaves the token inside the payload, and a later
lookup returns that payload as the value — no unrecoverable lookup
error is raised. -/
theorem c7_counterexample :
    fxNope.config = ⟨[], [("sec1", [("aa", "[=NOPE] x")])]⟩
    ∧ fxNope.ctxs = ⟨[], [("sec1", [])]⟩
    ∧ spGetattr ⟨fxNope, "sec1"⟩ "aa" = .ok (.str "[=NOPE] x") := by
  exact ⟨rfl, rfl, rfl⟩

/-- C7 amended: a leading bracket token citing an unregistered
function name is not recognized as a directive — when no registered
alternative matches at the start of the raw text, `_parse_option`
returns the text unchanged and records no function names (and hence
raises nothing). -/
theorem c7_amended (v : String) (h : matchFuncToken v.data = none) :
    parseOptionValue v = (v, []) := by
  simp [parseOptionValue, parseOptionLoop, h]

/-- Witness for C7 amended at the raw text `[=NOPE] x`. -/
theorem c7_amended_witness :
    parseOptionValue "[=NOPE] x" = ("[=NOPE] x", []) :=
  c7_amended "[=NOPE] x" (by decide)

/-! ## Claim C8 -/

/-- C8 counterexample: after a first read whose directives live only
in the default section, the context store is non-empty (it records
`aa → COMMA`) while `_ctxs._sections` is still empty, so a further
`format=None` read re-parses in full and adds `bb → BOOL` — the
context store is not left unchanged. -/
theorem c8_counterexample :
    fxDefOnly.ctxs.defaults = [("aa", "COMMA")]
    ∧ fxDefOnly.ctxs.sections = []
    ∧ fxDefOnly2.ctxs.defaults = [("aa", "COMMA"), ("bb", "BOOL")]
    ∧ fxDefOnly2.ctxs ≠ fxDefOnly.ctxs := by
  exact ⟨rfl, rfl, rfl, by decide⟩

/-- C8 amended: a read with `format='ini'` always leaves the context
store unchanged, and a read with `format=None` leaves it unchanged
provided the context store holds at least one regular (non-default)
section — the emptiness test `len(self._ctxs._sections) == 0` looks
only at regular sections, so a context store populated exclusively in
the default section does not suppress the full re-parse. -/
theorem c8_amended (F : Fetch) (inp : ReadInput) :
    (readStructured F inp (some "ini")).ctxs = F.ctxs
    ∧ (F.ctxs.sections ≠ [] → (readStructured F inp none).ctxs = F.ctxs) := by
  constructor
  · simp [readStructured, checkAndParseConfig]
  · intro h
    simp [readStructured, checkAndParseConfig, h]

/-- Witness for C8 amended: an `'ini'` read leaves the context store
unchanged both on a store with a regular section and on the
defaults-only store (where `_sections` is empty), and a `format=None`
read leaves it unchanged when a regular section exists. -/
theorem c8_amended_witness :
    (readStructured fxXxx [("sec1", [("bb", "[=BOOL] yes")])] (some "ini")).ctxs = fxXxx.ctxs
    ∧ (readStructured fxDefOnly [("DEFAULT", [("bb", "[=BOOL] yes")])] (some "ini")).ctxs
        = fxDefOnly.ctxs
    ∧ (readStructured fxXxx [("sec1", [("bb", "[=BOOL] yes")])] none).ctxs = fxXxx.ctxs :=
  ⟨(c8_amended fxXxx [("sec1", [("bb", "[=BOOL] yes")])]).1,
   (c8_amended fxDefOnly [("DEFAULT", [("bb", "[=BOOL] yes")])]).1,
   (c8_amended fxXxx [("sec1", [("bb", "[=BOOL] yes")])]).2 (by decide)⟩

/-! ## Claim C3 -/

/-- C3: for a `Double` lookup whose declared chain is not exactly
`plus`: a `NoOptionError` from the primary proxy defers entirely to
the fallback proxy (whose own result — value or `NoOptionError` — is
returned); a blank primary value (`None`, `''` or `[]`, and explicitly
not the boolean `False`, which `isBlankVal` rejects) is replaced by
the fallback's value when the fallback succeeds and kept when the
fallback raises `NoOptionError`; a non-blank primary value is kept. -/
theorem c3_double_plain (D : DoubleM) (opt : String) (fns : List String)
    (hf : spGetFuncname D.sec opt = .ok fns) (hne : fns ≠ ["_plus"]) :
    (∀ o s, spGetattr D.sec opt = .error (.noOption o s) →
        doubleGetattr D opt = spGetattr D.parent_sec opt)
    ∧ (∀ v, spGetattr D.sec opt = .ok v → isBlankVal v = true →
        (∀ pv, spGetattr D.parent_sec opt = .ok pv → doubleGetattr D opt = .ok pv)
        ∧ (∀ o s, spGetattr D.parent_sec opt = .error (.noOption o s) →
            doubleGetattr D opt = .ok v))
    ∧ (∀ v, spGetattr D.sec opt = .ok v → isBlankVal v = false →
        doubleGetattr D opt = .ok v)
    ∧ isBlankVal (.pybool false) = false := by
  have hD : doubleGetattr D opt = doubleGetVal D opt := by
    simp [doubleGetattr, hf, hne]
  refine ⟨?_, ?_, ?_, rfl⟩
  · intro o s h; rw [hD]; simp [doubleGetVal, h]
  · intro v hv hb
    constructor
    · intro pv hp; rw [hD]; simp [doubleGetVal, hv, hb, hp]
    · intro o s hp; rw [hD]; simp [doubleGetVal, hv, hb, hp]
  · intro v hv hb; rw [hD]; simp [doubleGetVal, hv, hb]

/-- Witness for C3 on the repository's own `Double` scenarios:
blank primary with absent fallback keeps `''`; absent primary with
blank fallback returns the fallback's `''`. -/
theorem c3_double_plain_witness :
    doubleGetattr ⟨⟨fxBlankBB, "sec1"⟩, ⟨fxYyy, "sec1"⟩⟩ "bb" = .ok (.str "")
    ∧ doubleGetattr ⟨⟨fxYyy, "sec1"⟩, ⟨fxBlankBB, "sec1"⟩⟩ "bb" = .ok (.str "") := by
  constructor
  · exact ((c3_double_plain ⟨⟨fxBlankBB, "sec1"⟩, ⟨fxYyy, "sec1"⟩⟩ "bb" [] rfl
      (by decide)).2.1 (.str "") rfl rfl).2 "bb" "sec1" rfl
  · have h := (c3_double_plain ⟨⟨fxYyy, "sec1"⟩, ⟨fxBlankBB, "sec1"⟩⟩ "bb" [] rfl
      (by decide)).1 "bb" "sec1" rfl
    rw [h]
    rfl

/-! ## Claim C4 -/

/-- C4: for a `Double` lookup whose declared chain is exactly `plus`,
blank-substitution is bypassed: the result is the plus/minus merge of
the primary's (argument, environment, config) triple with the
fallback's raw config value appended, processed in reverse order
(fallback config first, argument last); when all four sources are the
`_UNSET` marker the lookup raises `NoOptionError`. -/
theorem c4_double_plus (D : DoubleM) (opt : String) (pv a e c : PyVal)
    (hf : spGetFuncname D.sec opt = .ok ["_plus"])
    (hpv : spGetConf D.parent_sec opt = .ok pv)
    (hv : spGetValues D.sec opt = .ok (a, e, c)) :
    (¬ (a = PyVal.unset ∧ e = PyVal.unset ∧ c = PyVal.unset ∧ pv = PyVal.unset) →
        doubleGetattr D opt = (getPlusminusValues [pv, c, e, a] none).map PyVal.list)
    ∧ (a = PyVal.unset → e = PyVal.unset → c = PyVal.unset → pv = PyVal.unset →
        doubleGetattr D opt = .error (.noOption opt (ctxSecName D.sec.F D.sec.name))) := by
  have hD : doubleGetattr D opt = doubleGetPlus D opt := by
    simp [doubleGetattr, hf]
  have hrev : ([a, e, c, pv]).reverse = [pv, c, e, a] := rfl
  constructor
  · intro hne
    rw [hD]
    simp [doubleGetPlus, hpv, hv, hne, hrev]
  · rintro rfl rfl rfl rfl
    rw [hD]
    simp [doubleGetPlus, hpv, hv]

/-- Witness for C4: the repository's `Double` plus scenario
(`-yyy` over `xxx, yyy` gives the merge over the reversed four-source
list), and the all-absent case raising `NoOptionError`. -/
theorem c4_double_plus_witness :
    doubleGetattr ⟨⟨fxPlusChild, "sec1"⟩, ⟨fxPlusParent, "sec1"⟩⟩ "aa" =
      (getPlusminusValues [.str "xxx, yyy", .str "-yyy", .unset, .unset] none).map PyVal.list
    ∧ doubleGetattr ⟨⟨fxPlusEmpty, "sec1"⟩, ⟨fxPlusEmpty, "sec1"⟩⟩ "aa" =
      .error (.noOption "aa" "sec1") := by
  constructor
  · exact (c4_double_plus ⟨⟨fxPlusChild, "sec1"⟩, ⟨fxPlusParent, "sec1"⟩⟩ "aa"
      (.str "xxx, yyy") .unset .unset (.str "-yyy") rfl rfl rfl).1 (by decide)
  · exact (c4_double_plus ⟨⟨fxPlusEmpty, "sec1"⟩, ⟨fxPlusEmpty, "sec1"⟩⟩ "aa"
      .unset .unset .unset .unset rfl rfl rfl).2 rfl rfl rfl rfl

/-! ## Claim C2: lemmas about the plus/minus merge -/

/-- A well-formed `+name`/`-name` member acts as `pmApplyPure`. -/
theorem pmApply_wellFormed (acc : List String) (y : String)
    (h : pmWellFormed y = true) :
    pmApply acc y = .ok (pmApplyPure acc y) := by
  rw [pmWellFormed, decide_eq_true_eq] at h
  obtain ⟨h1, h2⟩ := h
  rcases h1 with h1 | h1
  · simp [pmApply, pmApplyPure, h1, h2]
  · have hplus : ¬ pyTake1 y = "+" := by rw [h1]; decide
    simp [pmApply, pmApplyPure, h1, h2, hplus]

/-- An ill-formed member makes `pmApply` raise `ValueError`. -/
theorem pmApply_illFormed (acc : List String) (y : String)
    (h : pmWellFormed y = false) :
    ∃ m, pmApply acc y = .error (.valueError m) := by
  rw [pmWellFormed, decide_eq_false_iff_not] at h
  have hA : ¬ (pyDrop1 y ≠ "" ∧ pyTake1 y = "+") := fun hc => h ⟨Or.inl hc.2, hc.1⟩
  have hB : ¬ (pyDrop1 y ≠ "" ∧ pyTake1 y = "-") := fun hc => h ⟨Or.inr hc.2, hc.1⟩
  refine ⟨"Input members must be +something or -something, or none of them. Got "
    ++ reprStr (pyTake1 y ++ pyDrop1 y) ++ ".", ?_⟩
  simp [pmApply, hA, hB]

/-- A layer of well-formed members folds to the pure fold. -/
theorem foldlM_pmApply_ok (l : List String) :
    ∀ acc, (∀ y ∈ l, pmWellFormed y = true) →
      l.foldlM pmApply acc = .ok (l.foldl pmApplyPure acc) := by
  induction l with
  | nil => intro acc _; rfl
  | cons y ys ih =>
    intro acc h
    have hy := h y (List.mem_cons_self y ys)
    simp only [List.foldlM_cons, pmApply_wellFormed acc y hy, List.foldl_cons]
    simpa using ih (pmApplyPure acc y) (fun z hz => h z (List.mem_cons.mpr (Or.inr hz)))

/-- A layer containing an ill-formed member folds to `ValueError`. -/
theorem foldlM_pmApply_err (l : List String) :
    ∀ acc, (∃ y ∈ l, pmWellFormed y = false) →
      ∃ m, l.foldlM pmApply acc = .error (.valueError m) := by
  induction l with
  | nil => rintro acc ⟨y, hy, _⟩; cases hy
  | cons y ys ih =>
    rintro acc ⟨z, hz, hzf⟩
    rcases List.mem_cons.mp hz with rfl | hz2
    · obtain ⟨m, hm⟩ := pmApply_illFormed acc z hzf
      exact ⟨m, by simp only [List.foldlM_cons, hm]; rfl⟩
    · by_cases hy : pmWellFormed y = true
      · obtain ⟨m, hm⟩ := ih (pmApplyPure acc y) ⟨z, hz2, hzf⟩
        refine ⟨m, ?_⟩
        simp only [List.foldlM_cons, pmApply_wellFormed acc y hy]
        simpa using hm
      · obtain ⟨m, hm⟩ := pmApply_illFormed acc y (by simpa using hy)
        exact ⟨m, by simp only [List.foldlM_cons, hm]; rfl⟩

/-- `OrderedDict.fromkeys` yields a duplicate-free list. -/
theorem fromkeys_nodup (l : List String) : (fromkeys l).Nodup := by
  have key : ∀ acc : List String, acc.Nodup →
      (l.foldl (fun acc k => if k ∈ acc then acc else acc ++ [k]) acc).Nodup := by
    induction l with
    | nil => intro acc h; exact h
    | cons x xs ih =>
      intro acc h
      simp only [List.foldl_cons]
      by_cases hx : x ∈ acc
      · rw [if_pos hx]; exact ih acc h
      · rw [if_neg hx]
        refine ih _ ?_
        rw [List.nodup_append]
        refine ⟨h, List.nodup_singleton x, ?_⟩
        intro a ha hb
        rw [List.mem_singleton] at hb
        subst hb
        exact hx ha
  exact key [] List.nodup_nil

/-- `pmApply` keeps the accumulated set duplicate-free. -/
theorem pmApply_nodup (acc : List String) (y : String) (h : acc.Nodup) :
    ∀ r, pmApply acc y = .ok r → r.Nodup := by
  intro r hr
  simp only [pmApply] at hr
  split at hr
  · simp only [Except.ok.injEq] at hr
    subst hr
    split
    · exact h
    · next hmem =>
      rw [List.nodup_append]
      refine ⟨h, List.nodup_singleton _, ?_⟩
      intro a ha hb
      rw [List.mem_singleton] at hb
      subst hb
      exact hmem ha
  · split at hr
    · simp only [Except.ok.injEq] at hr
      subst hr
      exact h.erase _
    · cases hr

/-- Folding a layer keeps the accumulated set duplicate-free. -/
theorem foldlM_pmApply_nodup (l : List String) :
    ∀ acc, acc.Nodup → ∀ r, l.foldlM pmApply acc = .ok r → r.Nodup := by
  induction l with
  | nil =>
    intro acc h r hr
    simp only [List.foldlM_nil] at hr
    cases hr
    exact h
  | cons y ys ih =>
    intro acc h r hr
    simp only [List.foldlM_cons] at hr
    cases happ : pmApply acc y with
    | error e => rw [happ] at hr; cases hr
    | ok acc2 =>
      rw [happ] at hr
      exact ih acc2 (pmApply_nodup acc y h acc2 happ) r (by simpa using hr)

/-- One merge layer keeps the accumulated set duplicate-free. -/
theorem pmStep_nodup (acc : List String) (b : PyVal) (h : acc.Nodup) :
    ∀ r, pmStep acc b = .ok r → r.Nodup := by
  intro r hr
  unfold pmStep at hr
  by_cases hb : pmBlankLayer b = true
  · rw [if_pos hb] at hr
    cases hr
    exact h
  · rw [if_neg hb] at hr
    cases b with
    | str s =>
      dsimp only at hr
      by_cases hany : ¬ (parseComma s).any pmMark = true
      · rw [if_pos hany] at hr
        cases hr
        exact fromkeys_nodup _
      · rw [if_neg hany] at hr
        exact foldlM_pmApply_nodup (parseComma s) acc h r hr
    | unset => simp at hr
    | pynone => simp at hr
    | pybool b2 => simp at hr
    | list xs => simp at hr
    | listlist xs => simp at hr

/-- The whole merge keeps the set duplicate-free. -/
theorem foldlM_pmStep_nodup (adjusts : List PyVal) :
    ∀ acc, acc.Nodup → ∀ r, adjusts.foldlM pmStep acc = .ok r → r.Nodup := by
  induction adjusts with
  | nil =>
    intro acc h r hr
    simp only [List.foldlM_nil] at hr
    cases hr
    exact h
  | cons b bs ih =>
    intro acc h r hr
    simp only [List.foldlM_cons] at hr
    cases hstep : pmStep acc b with
    | error e => rw [hstep] at hr; cases hr
    | ok acc2 =>
      rw [hstep] at hr
      exact ih acc2 (pmStep_nodup acc b h acc2 hstep) r (by simpa using hr)

/-- C2: the plus/minus merge.  A blank layer (`_UNSET`, `None`, `''`
or `[]`) is skipped without resetting the accumulation; a non-blank
string layer none of whose comma-split members carries a `+`/`-`
marker replaces the accumulation with exactly that layer's members (in
order, first occurrence kept); a layer with some marked member raises
`ValueError` when any member is not a well-formed `+name`/`-name`, and
otherwise applies the members in order, `+name` appending `name` at
the end when absent and `-name` removing it when present, preserving
the order of the remaining members; and every successful merge result
is duplicate-free (hence an ordered set in first-occurrence order). -/
theorem c2_plusminus :
    (∀ vals b, pmBlankLayer b = true → pmStep vals b = .ok vals)
    ∧ (∀ vals s, s ≠ "" → (∀ x ∈ parseComma s, pmMark x = false) →
        pmStep vals (.str s) = .ok (fromkeys (parseComma s)))
    ∧ (∀ vals s x, x ∈ parseComma s → pmMark x = true →
        (∃ y ∈ parseComma s, pmWellFormed y = false) →
        ∃ m, pmStep vals (.str s) = .error (.valueError m))
    ∧ (∀ vals s x, x ∈ parseComma s → pmMark x = true →
        (∀ y ∈ parseComma s, pmWellFormed y = true) →
        pmStep vals (.str s) = .ok ((parseComma s).foldl pmApplyPure vals))
    ∧ (∀ vals y, pyTake1 y = "+" → pyDrop1 y ≠ "" →
        pmApply vals y = .ok (if pyDrop1 y ∈ vals then vals else vals ++ [pyDrop1 y]))
    ∧ (∀ vals y, pyTake1 y = "-" → pyDrop1 y ≠ "" →
        pmApply vals y = .ok (vals.erase (pyDrop1 y)))
    ∧ (∀ adjusts initial res, getPlusminusValues adjusts initial = .ok res →
        res.Nodup) := by
  refine ⟨?_, ?_, ?_, ?_, ?_, ?_, ?_⟩
  · intro vals b hb
    simp [pmStep, hb]
  · intro vals s hs hmark
    have hb : pmBlankLayer (.str s) = false := by
      simp [pmBlankLayer, hs]
    have hany : (parseComma s).any pmMark = false := by
      rw [List.any_eq_false]
      intro x hx
      simp [hmark x hx]
    simp [pmStep, hb, hany]
  · intro vals s x hx hmx hbad
    have hs : s ≠ "" := by
      intro hempty
      subst hempty
      have : parseComma "" = [] := rfl
      rw [this] at hx
      cases hx
    have hb : pmBlankLayer (.str s) = false := by
      simp [pmBlankLayer, hs]
    have hany : (parseComma s).any pmMark = true :=
      List.any_eq_true.mpr ⟨x, hx, hmx⟩
    obtain ⟨m, hm⟩ := foldlM_pmApply_err (parseComma s) vals hbad
    refine ⟨m, ?_⟩
    simpa [pmStep, hb, hany] using hm
  · intro vals s x hx hmx hgood
    have hs : s ≠ "" := by
      intro hempty
      subst hempty
      have : parseComma "" = [] := rfl
      rw [this] at hx
      cases hx
    have hb : pmBlankLayer (.str s) = false := by
      simp [pmBlankLayer, hs]
    have hany : (parseComma s).any pmMark = true :=
      List.any_eq_true.mpr ⟨x, hx, hmx⟩
    have h := foldlM_pmApply_ok (parseComma s) vals hgood
    simpa [pmStep, hb, hany] using h
  · intro vals y h1 h2
    simp [pmApply, h1, h2]
  · intro vals y h1 h2
    have hplus : ¬ pyTake1 y = "+" := by rw [h1]; decide
    simp [pmApply, h1, h2, hplus]
  · intro adjusts initial res h
    unfold getPlusminusValues at h
    have hseed :
        (match initial with
          | some xs => if xs ≠ [] then fromkeys xs else []
          | none => []).Nodup := by
      cases initial with
      | none => exact List.nodup_nil
      | some xs =>
        dsimp
        split
        · exact fromkeys_nodup xs
        · exact List.nodup_nil
    exact foldlM_pmStep_nodup adjusts _ hseed res h

/-- Witness for C2 at the spec's own merge examples. -/
theorem c2_plusminus_witness :
    pmStep [] (.str "xxx,yyy") = .ok (fromkeys (parseComma "xxx,yyy"))
    ∧ pmStep ["aaa", "bbb", "ccc"] (.str "-aaa, +ddd, +eee") =
        .ok ((parseComma "-aaa, +ddd, +eee").foldl pmApplyPure ["aaa", "bbb", "ccc"])
    ∧ (∃ m, pmStep [] (.str "+x, y") = .error (.valueError m))
    ∧ pmStep ["aaa"] .unset = .ok ["aaa"]
    ∧ pmApply ["aaa"] "+ddd" =
        .ok (if pyDrop1 "+ddd" ∈ ["aaa"] then ["aaa"] else ["aaa"] ++ [pyDrop1 "+ddd"])
    ∧ pmApply ["aaa"] "-aaa" = .ok (["aaa"].erase (pyDrop1 "-aaa"))
    ∧ (["xxx", "yyy"] : List String).Nodup :=
  ⟨c2_plusminus.2.1 [] "xxx,yyy" (by decide) (by decide),
   c2_plusminus.2.2.2.1 ["aaa", "bbb", "ccc"] "-aaa, +ddd, +eee" "-aaa"
     (by decide) (by decide) (by decide),
   c2_plusminus.2.2.1 [] "+x, y" "+x" (by decide) (by decide)
     ⟨"y", by decide, by decide⟩,
   c2_plusminus.1 ["aaa"] .unset (by decide),
   c2_plusminus.2.2.2.2.1 ["aaa"] "+ddd" (by decide) (by decide),
   c2_plusminus.2.2.2.2.2.1 ["aaa"] "-aaa" (by decide) (by decide),
   c2_plusminus.2.2.2.2.2.2 [.str "xxx,yyy"] none ["xxx", "yyy"] rfl⟩

/-! ## Claim C10: lemmas for the parser invariant -/

/-- Every registry key is non-empty, comma-free and strip-invariant. -/
theorem goodKey_funcKeys : ∀ k ∈ funcKeys, goodKey k = true := by decide

/-- Every registry key is a key of `funcdict`. -/
theorem funcdict_lookup_funcKeys : ∀ k ∈ funcKeys, (funcdict.lookup k).isSome = true := by
  decide

/-- `List.lookup` only returns stored pairs. -/
theorem lookup_mem {β : Type} : ∀ (l : List (String × β)) (k : String) (v : β),
    List.lookup k l = some v → (k, v) ∈ l := by
  intro l
  induction l with
  | nil => intro k v h; cases h
  | cons p rest ih =>
    intro k v h
    obtain ⟨k2, v2⟩ := p
    rw [List.lookup] at h
    by_cases hk : (k == k2) = true
    · rw [hk] at h
      simp only [Option.some.injEq] at h
      subst h
      have hkk : k = k2 := by simpa using hk
      subst hkk
      exact List.mem_cons_self _ _
    · rw [Bool.not_eq_true] at hk
      rw [hk] at h
      exact List.mem_cons.mpr (Or.inr (ih k v h))

/-- The splitter turns `sep :: cs` into an empty first chunk. -/
theorem pySplitChar_sepHead (sep : Char) (cs : List Char) :
    pySplitChar sep (sep :: cs) = [] :: pySplitChar sep cs := by
  simp [pySplitChar]

/-- A separator-free list is one single chunk. -/
theorem pySplitChar_noSep (sep : Char) : ∀ cs, ¬ sep ∈ cs → pySplitChar sep cs = [cs] := by
  intro cs
  induction cs with
  | nil => intro _; rfl
  | cons c rest ih =>
    intro h
    have hc : ¬ c = sep := fun he => h (by rw [he]; exact List.mem_cons_self _ _)
    have hrest : ¬ sep ∈ rest := fun hm => h (List.mem_cons.mpr (Or.inr hm))
    simp [pySplitChar, hc, ih hrest]

/-- Splitting after a separator-free prefix peels that prefix off. -/
theorem pySplitChar_append (sep : Char) : ∀ (xs ys : List Char), ¬ sep ∈ xs →
    pySplitChar sep (xs ++ sep :: ys) = xs :: pySplitChar sep ys := by
  intro xs
  induction xs with
  | nil =>
    intro ys _
    simp [pySplitChar]
  | cons c rest ih =>
    intro ys h
    have hc : ¬ c = sep := fun he => h (by rw [he]; exact List.mem_cons_self _ _)
    have hrest : ¬ sep ∈ rest := fun hm => h (List.mem_cons.mpr (Or.inr hm))
    rw [List.cons_append]
    simp only [pySplitChar, if_neg hc, ih ys hrest]

/-- Unfolding `','.join` one element at a time, at the character level. -/
theorem pyJoinComma_data (x y : String) (ys : List String) :
    (pyJoinComma (x :: y :: ys)).data = x.data ++ ',' :: (pyJoinComma (y :: ys)).data := by
  show (x ++ "," ++ pyJoinComma (y :: ys)).data = _
  rw [String.data_append, String.data_append]
  simp

/-- `','.join` then split-and-strip recovers a non-empty list of
registry-like keys exactly. -/
theorem join_split_roundtrip : ∀ (l : List String), l ≠ [] →
    (∀ k ∈ l, goodKey k = true) → splitStripComma (pyJoinComma l) = l := by
  intro l
  induction l with
  | nil => intro h _; cases h rfl
  | cons x rest ih =>
    intro _ hgood
    have hx := hgood x (List.mem_cons_self x rest)
    rw [goodKey, decide_eq_true_eq] at hx
    obtain ⟨hne, hnc, hstrip⟩ := hx
    cases rest with
    | nil =>
      show splitStripComma (pyJoinComma [x]) = [x]
      unfold splitStripComma pyJoinComma
      rw [pySplitChar_noSep ',' x.data hnc, List.map_cons, List.map_nil]
      rw [show String.mk (stripChars isPySpace x.data) = pyStrip x from rfl, hstrip]
    | cons y ys =>
      have hr := ih (by simp) (fun k hk => hgood k (List.mem_cons.mpr (Or.inr hk)))
      unfold splitStripComma
      rw [pyJoinComma_data x y ys, pySplitChar_append ',' x.data _ hnc, List.map_cons]
      rw [show String.mk (stripChars isPySpace x.data) = pyStrip x from rfl, hstrip]
      exact congrArg (x :: ·) hr

/-- In a well-formed store, every value `ctxGet` can return is a
well-formed entry. -/
theorem ctxGet_entryWF (st : CPStore) (name opt s : String)
    (hwf : storeWF st = true) (h : ctxGet st name opt = some s) : entryWF s = true := by
  unfold storeWF at hwf
  rw [Bool.and_eq_true] at hwf
  obtain ⟨hdef, hsec⟩ := hwf
  rw [List.all_eq_true] at hdef
  rw [List.all_eq_true] at hsec
  unfold ctxGet at h
  by_cases hn : name = "DEFAULT"
  · rw [if_pos hn] at h
    exact hdef _ (lookup_mem _ _ _ h)
  · rw [if_neg hn] at h
    cases hfirst : (((st.sections.lookup name).getD []).lookup opt) with
    | some v =>
      rw [hfirst] at h
      simp only [Option.some.injEq] at h
      subst h
      cases hsecl : st.sections.lookup name with
      | none =>
        rw [hsecl] at hfirst
        cases hfirst
      | some es =>
        rw [hsecl] at hfirst
        have hes := hsec _ (lookup_mem _ _ _ hsecl)
        rw [List.all_eq_true] at hes
        exact hes _ (lookup_mem _ _ _ hfirst)
    | none =>
      rw [hfirst] at h
      exact hdef _ (lookup_mem _ _ _ h)

/-- The `funcdict` lookups succeed on any list of stored names whose
members are all keys. -/
theorem lookupChain_ok (l : List String)
    (h : ∀ n ∈ l, (funcdict.lookup n).isSome = true) :
    ∃ fns, lookupChain l = .ok fns := by
  induction l with
  | nil => exact ⟨[], rfl⟩
  | cons n rest ih =>
    have hn := h n (List.mem_cons_self n rest)
    cases hl : funcdict.lookup n with
    | none => rw [hl] at hn; cases hn
    | some fn =>
      obtain ⟨fns, hfns⟩ := ih (fun z hz => h z (List.mem_cons.mpr (Or.inr hz)))
      exact ⟨fn :: fns, by simp only [lookupChain, hl, hfns]; rfl⟩

/-- On a well-formed store, `Func._get_funcname` never raises. -/
theorem getFuncname_ok (st : CPStore) (name opt : String) (hwf : storeWF st = true) :
    ∃ fns, getFuncname st name opt = .ok fns := by
  unfold getFuncname
  by_cases ht : ctxTruthy st name = true
  · rw [if_pos ht]
    cases hg : ctxGet st name opt with
    | none => exact ⟨[], rfl⟩
    | some s =>
      dsimp only
      by_cases hs : s ≠ ""
      · rw [if_pos hs]
        have hewf := ctxGet_entryWF st name opt s hwf hg
        unfold entryWF at hewf
        rw [List.all_eq_true] at hewf
        exact lookupChain_ok _ hewf
      · rw [if_neg hs]
        exact ⟨[], rfl⟩
  · rw [if_neg ht]
    exact ⟨[], rfl⟩

/-- `matchKey` only returns keys from the supplied list. -/
theorem matchKey_mem : ∀ (ks : List String) (s : List Char) (k : String) (r : List Char),
    matchKey s ks = some (k, r) → k ∈ ks := by
  intro ks
  induction ks with
  | nil => intro s k r h; cases h
  | cons k2 rest ih =>
    intro s k r h
    unfold matchKey at h
    split at h
    · simp only [Option.some.injEq, Prod.mk.injEq] at h
      exact List.mem_cons.mpr (Or.inl h.1.symm)
    · exact List.mem_cons.mpr (Or.inr (ih s k r h))

/-- A matched token name is a registry key. -/
theorem matchFuncToken_mem (s : List Char) (k : String) (r : List Char)
    (h : matchFuncToken s = some (k, r)) : k ∈ funcKeys := by
  unfold matchFuncToken at h
  split at h
  · split at h
    · split at h
      · next k2 rest2 heq =>
        simp only [Option.some.injEq, Prod.mk.injEq] at h
        exact h.1 ▸ matchKey_mem funcKeys _ k2 rest2 heq
      · cases h
    · cases h
  · cases h

/-- Every name the parse loop accumulates is a registry key. -/
theorem parseOptionLoop_mem : ∀ (fuel : Nat) (s : List Char) (acc : List String),
    (∀ k ∈ acc, k ∈ funcKeys) → ∀ k ∈ (parseOptionLoop fuel s acc).2, k ∈ funcKeys := by
  intro fuel
  induction fuel with
  | zero => intro s acc hacc k hk; exact hacc k hk
  | succ n ih =>
    intro s acc hacc k hk
    unfold parseOptionLoop at hk
    cases hm : matchFuncToken s with
    | none =>
      rw [hm] at hk
      exact hacc k hk
    | some pr =>
      obtain ⟨k2, rest⟩ := pr
      rw [hm] at hk
      refine ih rest (acc ++ [k2]) ?_ k hk
      intro z hz
      rcases List.mem_append.mp hz with hz1 | hz2
      · exact hacc z hz1
      · rw [List.mem_singleton] at hz2
        subst hz2
        exact matchFuncToken_mem s z rest hm

/-- The comma-join of the recognized names is a well-formed entry. -/
theorem entryWF_join (funcs : List String) (hne : funcs ≠ [])
    (hsub : ∀ k ∈ funcs, k ∈ funcKeys) : entryWF (pyJoinComma funcs) = true := by
  unfold entryWF
  rw [join_split_roundtrip funcs hne (fun k hk => goodKey_funcKeys k (hsub k hk))]
  rw [List.all_eq_true]
  intro n hn
  exact funcdict_lookup_funcKeys n (hsub n hn)

/-- Python dict update keeps a per-value predicate. -/
theorem assocSet_all (P : String → Bool) :
    ∀ (l : List (String × String)) (k v : String),
      l.all (fun p => P p.2) = true → P v = true →
      (assocSet l k v).all (fun p => P p.2) = true := by
  intro l
  induction l with
  | nil => intro k v _ hv; simp [assocSet, hv]
  | cons p rest ih =>
    intro k v hall hv
    obtain ⟨k2, v2⟩ := p
    rw [List.all_cons, Bool.and_eq_true] at hall
    obtain ⟨h1, h2⟩ := hall
    unfold assocSet
    by_cases hk : k2 = k
    · rw [if_pos hk]
      simp [List.all_cons, hv, h2]
    · rw [if_neg hk]
      simp [List.all_cons, h1, ih k v h2 hv]

/-- `ConfigParser.set` with a well-formed value keeps the store
well formed. -/
theorem set_storeWF (st : CPStore) (sec opt v : String)
    (hwf : storeWF st = true) (hv : entryWF v = true) :
    storeWF (st.set sec opt v) = true := by
  unfold storeWF at hwf
  rw [Bool.and_eq_true] at hwf
  obtain ⟨hd, hs⟩ := hwf
  unfold CPStore.set
  by_cases hsec : sec = "DEFAULT"
  · rw [if_pos hsec]
    unfold storeWF
    rw [Bool.and_eq_true]
    exact ⟨assocSet_all entryWF st.defaults opt v hd hv, hs⟩
  · rw [if_neg hsec]
    unfold storeWF
    rw [Bool.and_eq_true]
    refine ⟨hd, ?_⟩
    rw [List.all_eq_true] at hs
    rw [List.all_eq_true]
    intro q hq
    rw [List.mem_map] at hq
    obtain ⟨q0, hq0, rfl⟩ := hq
    by_cases heq : q0.1 = sec
    · rw [if_pos heq]
      exact assocSet_all entryWF q0.2 opt v (hs q0 hq0) hv
    · rw [if_neg heq]
      exact hs q0 hq0

/-- `ConfigParser.add_section` keeps the store well formed. -/
theorem addSection_storeWF (st : CPStore) (sec : String) (hwf : storeWF st = true) :
    storeWF (st.addSection sec) = true := by
  unfold storeWF at hwf
  rw [Bool.and_eq_true] at hwf
  unfold storeWF CPStore.addSection
  simp [List.all_append, hwf.1, hwf.2]

/-- `_parse_option` keeps the context store well formed. -/
theorem parseStoreOption_storeWF (cfg ctxs : CPStore) (sec opt : String)
    (hwf : storeWF ctxs = true) :
    storeWF (parseStoreOption cfg ctxs sec opt).2 = true := by
  unfold parseStoreOption
  cases h : configGet cfg sec opt with
  | error e => exact hwf
  | ok value =>
    dsimp only
    by_cases hf : (parseOptionValue value).2 ≠ []
    · rw [if_pos hf]
      refine set_storeWF _ _ _ _ hwf ?_
      refine entryWF_join _ hf ?_
      exact parseOptionLoop_mem (value.data.length + 1) value.data []
        (fun k hk => absurd hk (List.not_mem_nil k))
    · rw [if_neg hf]
      exact hwf

/-- The per-section option loop keeps the context store well formed. -/
theorem foldOpts_storeWF (sec : String) : ∀ (opts : List String) (cfg ctxs : CPStore),
    storeWF ctxs = true →
    storeWF ((opts.foldl (fun st opt => parseStoreOption st.1 st.2 sec opt)
      (cfg, ctxs)).2) = true := by
  intro opts
  induction opts with
  | nil => intro cfg ctxs h; exact h
  | cons o os ih =>
    intro cfg ctxs h
    rw [List.foldl_cons]
    exact ih _ _ (parseStoreOption_storeWF cfg ctxs sec o h)

/-- One section of `_parse_config` keeps the context store well
formed. -/
theorem parseOneSection_storeWF (st : CPStore × CPStore) (sec : String)
    (hwf : storeWF st.2 = true) : storeWF (parseOneSection st sec).2 = true := by
  unfold parseOneSection
  dsimp only
  by_cases hc : st.2.contains sec = true
  · rw [if_pos hc]
    exact foldOpts_storeWF sec _ st.1 st.2 hwf
  · rw [if_neg hc]
    exact foldOpts_storeWF sec _ st.1 _ (addSection_storeWF st.2 sec hwf)

/-- The section loop of `_parse_config` keeps the context store well
formed. -/
theorem foldSections_storeWF : ∀ (names : List String) (st : CPStore × CPStore),
    storeWF st.2 = true → storeWF ((names.foldl parseOneSection st).2) = true := by
  intro names
  induction names with
  | nil => intro st h; exact h
  | cons n ns ih =>
    intro st h
    rw [List.foldl_cons]
    exact ih _ (parseOneSection_storeWF st n h)

/-- `_parse_config` keeps the context store well formed. -/
theorem parseConfigFull_storeWF (cfg ctxs : CPStore) (h : storeWF ctxs = true) :
    storeWF (parseConfigFull cfg ctxs).2 = true :=
  foldSections_storeWF _ (cfg, ctxs) h

/-- `_check_and_parse_config` keeps the context store well formed. -/
theorem checkAndParse_storeWF (F : Fetch) (format : Option String)
    (h : storeWF F.ctxs = true) : storeWF (checkAndParseConfig F format).ctxs = true := by
  unfold checkAndParseConfig
  dsimp only
  by_cases hc : (if format = none then
      (if F.ctxs.sections = [] then some "fini" else none) else format) = some "fini"
  · rw [if_pos hc]
    exact parseConfigFull_storeWF F.config F.ctxs h
  · rw [if_neg hc]
    exact h

/-- One read keeps the context store well formed. -/
theorem readStructured_storeWF (F : Fetch) (inp : ReadInput) (format : Option String)
    (h : storeWF F.ctxs = true) : storeWF (readStructured F inp format).ctxs = true :=
  checkAndParse_storeWF _ format h

/-- Any fold of reads keeps the context store well formed. -/
theorem foldReads_storeWF : ∀ (reads : List (ReadInput × Option String)) (F : Fetch),
    storeWF F.ctxs = true →
    storeWF ((reads.foldl (fun F r => readStructured F r.1 r.2) F).ctxs) = true := by
  intro reads
  induction reads with
  | nil => intro F h; exact h
  | cons r rs ih =>
    intro F h
    rw [List.foldl_cons]
    exact ih _ (readStructured_storeWF F r.1 r.2 h)

/-- C10: after any sequence of reads against a fresh `ConfigFetch`,
every value recorded in the context store splits into names that are
keys of the registry dictionary (uppercase names of registered
functions, stored comma-joined), and consequently the
`funcdict[f]` chain lookup in `Func._get_funcname` never fails for any
section and option. -/
theorem c10_funcnames_registered (args : List (String × PyVal))
    (envs environ fmts : List (String × String))
    (reads : List (ReadInput × Option String)) (sec opt : String) :
    storeWF (runReads args envs environ fmts reads).ctxs = true
    ∧ ∃ fns, spGetFuncname ⟨runReads args envs environ fmts reads, sec⟩ opt = .ok fns := by
  have hwf : storeWF (runReads args envs environ fmts reads).ctxs = true :=
    foldReads_storeWF reads (emptyFetch args envs environ fmts) rfl
  exact ⟨hwf, getFuncname_ok _ _ _ hwf⟩

end Configfetch
